import Mathlib

/-!
Verification development for the AI literature screening tool
(single-file Flask application `app.py`).

The development shallowly embeds the record-normalization and
classification pipeline of the source:

* `Record` — the canonical record dictionary produced by the parsers
  (keys kept with their source names).
* `findTag` — the model of `re.search(r'\[CLASSIFICATION:([^\]]+)\]', t)`
  used by `screen_papers` to extract the structured verdict tag.
* `heuristicResult` / `mapClassification` — the text fallback and the
  marker table of `screen_papers`.
* `screenRecord` — the per-record retry loop of `screen_papers`
  (exception-free path; the model client is an oracle `Nat → String`
  giving the response of each call).
* `parsePubmedTxt` — the PubMed tag parser together with its free-text
  fallback branch, including models of every regular expression the
  source applies to a chunk.
* `export_to_excel` / `parseExcel` — the tabular export and the
  column-inferring spreadsheet parser.  The spreadsheet serialization
  itself is an external collaborator (spec §1); it is modelled by the
  standard pandas/openpyxl round trip: a non-empty string cell is
  preserved, an empty string becomes a missing cell (`none`), and a
  missing cell is read back as NaN.

the Python `str.strip` / `\s` / `\d` strip or match a slightly larger
whitespace/digit set than `Char.isWhitespace` / `Char.isDigit`
(form feed, vertical tab and non-ASCII variants); the embedding uses
the Lean predicates, which agree on every character appearing in the
tag tables of the source and in all inputs considered here.
-/

/-- The canonical record shape: the dictionary built by both parsers in
`app.py` (`parse_pubmed_txt` and `parse_excel`), with the Chinese key names of the source kept as field names.  The Python dict always carries
all seven keys, which the structure models by construction. -/
structure Record where
  «标题» : String
  «摘要» : String
  «关键词» : String
  «作者» : String
  «日期» : String
  PMID : String
  «国家» : String
deriving DecidableEq

/-! ### Kernel-computable string primitives

The built-in `String` operations (`trim`, `take`, `replace`, …) are
implemented on byte positions with well-founded recursion and do not
reduce inside the kernel, so the embedding re-implements the Python
string operations it needs over `List Char` by structural recursion. -/

/-- Occurrence of `needle` as a contiguous sublist of `hay`, scanning
every start position. -/
def subOccurs (needle : List Char) : List Char → Bool
  | [] => needle.isEmpty
  | c :: rest => needle.isPrefixOf (c :: rest) || subOccurs needle rest

/-- the Python substring test of needle in hay. -/
def containsStr (hay needle : String) : Bool :=
  subOccurs needle.data hay.data

/-- the Python `str.strip()` on a character list: drop whitespace from
both ends. -/
def trimL (cs : List Char) : List Char :=
  ((cs.dropWhile Char.isWhitespace).reverse.dropWhile Char.isWhitespace).reverse

/-- the Python `str.strip()`. -/
def pyStrip (s : String) : String := String.mk (trimL s.data)

/-- the Python `str.replace(pat, rep)` (all occurrences, left to right,
non-overlapping), fuelled for structural recursion; used only with a
non-empty `pat`, for which `fuel = length` suffices. -/
def replaceFuel (pat rep : List Char) : Nat → List Char → List Char
  | 0, cs => cs
  | _ + 1, [] => []
  | fuel + 1, c :: rest =>
    if pat.isPrefixOf (c :: rest) then rep ++ replaceFuel pat rep fuel ((c :: rest).drop pat.length)
    else c :: replaceFuel pat rep fuel rest

/-- the Python `str.replace(pat, rep)` for non-empty `pat`. -/
def pyReplace (s pat rep : String) : String :=
  String.mk (replaceFuel pat.data rep.data s.data.length s.data)

/-- Split off everything before the first occurrence of `sep`, with the
remainder after the separator; `none` when `sep` does not occur. -/
def splitOnce (sep : List Char) : List Char → Option (List Char × List Char)
  | [] => none
  | c :: rest =>
    if sep.isPrefixOf (c :: rest) then some ([], (c :: rest).drop sep.length)
    else
      match splitOnce sep rest with
      | some (b, a) => some (c :: b, a)
      | none => none

/-- the Python `str.split(sep)` for a non-empty literal separator,
fuelled for structural recursion. -/
def splitFuel (sep : List Char) : Nat → List Char → List (List Char)
  | 0, cs => [cs]
  | fuel + 1, cs =>
    match splitOnce sep cs with
    | none => [cs]
    | some (b, a) => b :: splitFuel sep fuel a

/-- the Python `str.split(sep)` (non-empty separator). -/
def pySplit (s sep : String) : List String :=
  (splitFuel sep.data (s.data.length + 1) s.data).map String.mk

/-- the Python `sep.join(parts)`. -/
def joinSep (sep : List Char) : List (List Char) → List Char
  | [] => []
  | [x] => x
  | x :: y :: xs => x ++ sep ++ joinSep sep (y :: xs)

/-- the Python `sep.join(parts)` on strings. -/
def pyJoin (sep : String) (parts : List String) : String :=
  String.mk (joinSep sep.data (parts.map String.data))

/-- the Python `str.lower()` (ASCII range; the keyword tables of the source
contain only ASCII letters and Chinese characters, which both
implementations leave unchanged). -/
def pyLower (s : String) : String := String.mk (s.data.map Char.toLower)

/-- the Python `str.startswith(pre)`. -/
def pyStartsWith (s pre : String) : Bool := pre.data.isPrefixOf s.data

/-- Characters other than the closing bracket: the regex class `[^\]]`. -/
def notRB (c : Char) : Bool := c != ']'

/-- The literal head of the structured tag pattern. -/
def tagHead : List Char := "[CLASSIFICATION:".data

/-- One attempted match of `\[CLASSIFICATION:([^\]]+)\]` at the start of
`cs`: the literal head, then a non-empty maximal run of non-`]`
characters (the greedy `[^\]]+`), then `]`.  Returns the captured
group. -/
def tagAt (cs : List Char) : Option (List Char) :=
  if tagHead.isPrefixOf cs then
    let rest := cs.drop tagHead.length
    match rest.dropWhile notRB with
    | ']' :: _ => if (rest.takeWhile notRB).isEmpty then none
                  else some (rest.takeWhile notRB)
    | _ => none
  else none

/-- Leftmost match of the structured-tag pattern, as `re.search` finds
it: try every start position from the left. -/
def findTagAux : List Char → Option (List Char)
  | [] => none
  | c :: rest =>
    match tagAt (c :: rest) with
    | some v => some v
    | none => findTagAux rest

/-- `re.search(r'\[CLASSIFICATION:([^\]]+)\]', s)`, returning
`group(1)`. -/
def findTag (s : String) : Option String :=
  (findTagAux s.data).map String.mk

/-- The marker table of `screen_papers` (lines 599–609): the captured
group is stripped and compared against the three recognized markers;
anything else falls to the undetermined marker. -/
def mapClassification (c : String) : String :=
  let v := pyStrip c
  if v = "是" then "是"
  else if v = "否" then "否"
  else if v = "未知" then "未知"
  else "未知"

/-- The text fallback of `screen_papers` (lines 616–621), applied when
no structured tag is found: `否` / `不是` first, then `是`, else
`未知`. -/
def heuristicResult (t : String) : String :=
  if containsStr t "否" || containsStr t "不是" then "否"
  else if containsStr t "是" then "是"
  else "未知"

/-- One interaction of the retry loop: the content actually passed to
`chat_with_local_model`, the content of the `ai_interaction` send
event, and the (stripped) response. -/
structure Attempt where
  sent : String
  event : String
  answer : String
deriving DecidableEq

/-- The interaction of attempt `k` (0-based `retry_count`): the model
client always receives `full_prompt`; the send event shows the first
500 characters on attempt 0 and a shortened compliance directive on
retries (lines 574–577). -/
def attemptOf (fp : String) (k : Nat) (answer : String) : Attempt :=
  { sent := fp
  , event := if k == 0 then String.mk (fp.data.take 500) ++ "..."
             else "第" ++ toString (k + 1) ++ "次尝试：请严格按照格式要求输出分类结果"
  , answer := answer }

/-- The body of the retry loop of `screen_papers` (lines 562–634) on
the exception-free path.  `fuel` is `max_retries - retry_count`, `k` is
`retry_count`, `r` the current `result` (read only if the `while`
condition itself fails).  Returns the final `result` and the ordered
list of interactions (one per model call). -/
def screenAux (fp : String) (oracle : Nat → String) :
    Nat → Nat → String → String × List Attempt
  | 0, _, r => (r, [])
  | fuel + 1, k, _ =>
    let ac := pyStrip (oracle k)
    let att := attemptOf fp k ac
    match findTag ac with
    | some c => (mapClassification c, [att])
    | none =>
      let r2 := heuristicResult ac
      if k < 3 - 1 then
        let p := screenAux fp oracle fuel (k + 1) r2
        (p.1, att :: p.2)
      else (r2, [att])

/-- The retry loop entered with `max_retries = 3`, `retry_count = 0`,
`result` the undetermined marker. -/
def screenRecord (fp : String) (oracle : Nat → String) : String × List Attempt :=
  screenAux fp oracle 3 0 "未知"

/-! ### The PubMed text parser `parse_pubmed_txt` (lines 179–285)

Each regular expression the source applies to a raw record is modelled
directly, including the greedy/lazy behaviour relevant to it. -/

/-- Length of the leading run of newline characters. -/
def newlineRun : List Char → Nat
  | '\n' :: rest => newlineRun rest + 1
  | _ => 0

/-- One step of `re.split(r'\n\n+(?=PMID-)', content)`: the segment
before the first delimiter (a maximal run of at least two newlines
immediately followed by `PMID-`) and the remainder after it. -/
def splitPM : List Char → List Char × Option (List Char)
  | [] => ([], none)
  | c :: rest =>
    let k := newlineRun (c :: rest)
    if 2 ≤ k && "PMID-".data.isPrefixOf ((c :: rest).drop k) then
      ([], some ((c :: rest).drop k))
    else
      let p := splitPM rest
      (c :: p.1, p.2)

/-- `re.split(r'\n\n+(?=PMID-)', content)`, fuelled for structural
recursion (every delimiter consumes at least two characters, so
`fuel = length + 1` always suffices). -/
def splitChunks : Nat → List Char → List (List Char)
  | 0, cs => [cs]
  | fuel + 1, cs =>
    match splitPM cs with
    | (seg, none) => [seg]
    | (seg, some rest) => seg :: splitChunks fuel rest

/-- `re.search(r'PMID-\s*(\d+)', raw)` at one position: the literal
head, optional whitespace, then a non-empty greedy digit run. -/
def pmidAt (cs : List Char) : Option String :=
  if "PMID-".data.isPrefixOf cs then
    let r := (cs.drop 5).dropWhile Char.isWhitespace
    let d := r.takeWhile Char.isDigit
    if d.isEmpty then none else some (String.mk d)
  else none

/-- `re.search(r'PMID-\s*(\d+)', raw).group(1)`: leftmost position at
which the whole pattern matches. -/
def searchPMID : List Char → Option String
  | [] => none
  | c :: rest =>
    match pmidAt (c :: rest) with
    | some s => some s
    | none => searchPMID rest

/-- Matches `TAG\s+-\s*` minus the final whitespace: the literal tag,
at least one whitespace character (greedy), then `-`; returns the
remainder right after the dash.  `\s+` may not backtrack usefully here
because `-` is not a whitespace character. -/
def afterTagDash (tag : List Char) (cs : List Char) : Option (List Char) :=
  if tag.isPrefixOf cs then
    let r1 := cs.drop tag.length
    if (r1.takeWhile Char.isWhitespace).isEmpty then none
    else
      match r1.dropWhile Char.isWhitespace with
      | '-' :: r2 => some r2
      | _ => none
  else none

/-- The lookahead `(?=\n[A-Z]{2}\s+-)` of the title/abstract/keyword
patterns: a newline, two ASCII capitals, whitespace, a dash. -/
def lineTagAhead : List Char → Bool
  | '\n' :: a :: b :: rest =>
    a.isUpper && b.isUpper && !(rest.takeWhile Char.isWhitespace).isEmpty &&
      (match rest.dropWhile Char.isWhitespace with
       | '-' :: _ => true
       | _ => false)
  | _ => false

/-- The lazy capture `(.*?)(?=\n[A-Z]{2}\s+-|\Z)` under `re.DOTALL`:
extend the capture one character at a time until the lookahead holds or
the input ends (`\Z`); the shortest such capture wins. -/
def lazyCap : List Char → List Char
  | [] => []
  | c :: rest => if lineTagAhead (c :: rest) then [] else c :: lazyCap rest

/-- One position of `TAG\s+-\s+(.*?)(?=\n[A-Z]{2}\s+-|\Z)` with
`re.DOTALL`: after `TAG\s+-`, a non-empty greedy whitespace run, then
the lazy capture.  The lazy group can always complete via `\Z`, so the
greedy runs never backtrack. -/
def lazyTagAt (tag : List Char) (cs : List Char) : Option (List Char) :=
  match afterTagDash tag cs with
  | none => none
  | some r2 =>
    if (r2.takeWhile Char.isWhitespace).isEmpty then none
    else some (lazyCap (r2.dropWhile Char.isWhitespace))

/-- `re.search` of the lazy-capture pattern: leftmost matching
position. -/
def searchLazyTag (tag : List Char) : List Char → Option (List Char)
  | [] => none
  | c :: rest =>
    match lazyTagAt tag (c :: rest) with
    | some cap => some cap
    | none => searchLazyTag tag rest

/-- The suffix `\s+(.+)` of the single-line patterns (`MH`, `AU`,
`PL`), matching at `r2` with the pattern ending after the capture.
Returns the capture and the remainder after the whole match.  The
greedy `\s+` backtracks when everything after it is whitespace: the
regex engine then re-takes the latest non-newline whitespace character
with `.+`, so the successful split keeps the longest whitespace run
that still leaves `.+` a non-newline character to consume. -/
def wsLineCapture (r2 : List Char) : Option (List Char × List Char) :=
  let w := r2.takeWhile Char.isWhitespace
  let rest := r2.dropWhile Char.isWhitespace
  if w.isEmpty then none
  else
    match rest with
    | _ :: _ =>
      let cap := rest.takeWhile (fun x => x != '\n')
      some (cap, rest.drop cap.length)
    | [] =>
      let m := (w.reverse.takeWhile (fun x => x = '\n')).length
      if m + 1 < w.length then
        let cap := (w.drop (w.length - m - 1)).takeWhile (fun x => x != '\n')
        some (cap, (w.drop (w.length - m - 1)).drop cap.length)
      else none

/-- One position of `TAG\s+-\s+(.+)` (no `DOTALL`). -/
def lineTagAt (tag : List Char) (cs : List Char) : Option (List Char × List Char) :=
  match afterTagDash tag cs with
  | none => none
  | some r2 => wsLineCapture r2

/-- `re.findall(r'TAG\s+-\s+(.+)', raw)`: all non-overlapping matches,
left to right, resuming after each match; fuelled for structural
recursion (each step consumes at least one character). -/
def findAllLineTag (tag : List Char) : Nat → List Char → List (List Char)
  | 0, _ => []
  | _ + 1, [] => []
  | fuel + 1, c :: rest =>
    match lineTagAt tag (c :: rest) with
    | some (cap, rem) => cap :: findAllLineTag tag fuel rem
    | none => findAllLineTag tag fuel rest

/-- `re.search(r'TAG\s+-\s+(.+)', raw)`: capture of the first match. -/
def searchLineTag (tag : List Char) : List Char → Option (List Char)
  | [] => none
  | c :: rest =>
    match lineTagAt tag (c :: rest) with
    | some (cap, _) => some cap
    | none => searchLineTag tag rest

/-- One position of `TAG\s+-\s+(\d{4})`: after `TAG\s+-`, a non-empty
greedy whitespace run, then four digits (digits are not whitespace, so
no backtracking arises). -/
def yearTagAt (tag : List Char) (cs : List Char) : Option String :=
  match afterTagDash tag cs with
  | none => none
  | some r2 =>
    if (r2.takeWhile Char.isWhitespace).isEmpty then none
    else
      let d := (r2.dropWhile Char.isWhitespace).take 4
      if d.length = 4 && d.all Char.isDigit then some (String.mk d) else none

/-- `re.search(r'TAG\s+-\s+(\d{4})', raw)`. -/
def searchYearTag (tag : List Char) : List Char → Option String
  | [] => none
  | c :: rest =>
    match yearTagAt tag (c :: rest) with
    | some y => some y
    | none => searchYearTag tag rest

/-- The cleanup applied to the title/abstract/keyword captures:
`.replace('\n', ' ').replace('      ', ' ').strip()` (the second
pattern is six spaces), or the empty string when the search failed. -/
def cleanField : Option (List Char) → String
  | some cs => pyStrip (pyReplace (pyReplace (String.mk cs) "\n" " ") "      " " ")
  | none => ""

/-- Field extraction from one raw PubMed chunk (lines 195–244). -/
def chunkRecord (raw : List Char) : Record :=
  let mesh := findAllLineTag "MH".data (raw.length + 1) raw
  let aus := findAllLineTag "AU".data (raw.length + 1) raw
  { PMID := (searchPMID raw).getD ""
  , «标题» := cleanField (searchLazyTag "TI".data raw)
  , «摘要» := cleanField (searchLazyTag "AB".data raw)
  , «关键词» :=
      match mesh with
      | [] => cleanField (searchLazyTag "OT".data raw)
      | _ :: _ => pyJoin "; " (mesh.map String.mk)
  , «作者» :=
      match aus with
      | [] => ""
      | _ :: _ => pyJoin "; " ((aus.take 5).map String.mk)
  , «日期» :=
      match searchYearTag "DP".data raw with
      | some y => y
      | none => (searchYearTag "DA".data raw).getD ""
  , «国家» :=
      match searchLineTag "PL".data raw with
      | some c => pyStrip (String.mk c)
      | none => "" }

/-- The substring after the first `:` of a line, stripped — the Python
`line.split(':', 1)[1].strip()`. -/
def afterColon (line : String) : String :=
  pyStrip (String.mk ((line.data.dropWhile (fun c => c != ':')).drop 1))

/-- One line of the free-text fallback branch (lines 262–276): the
stripped line is tested against the recognized `prefix:` forms and the
matching field is overwritten. -/
def freeLine (r : Record) (rawLine : String) : Record :=
  let line := pyStrip rawLine
  if pyStartsWith line "Title:" || pyStartsWith line "标题:" then { r with «标题» := afterColon line }
  else if pyStartsWith line "Abstract:" || pyStartsWith line "摘要:" then { r with «摘要» := afterColon line }
  else if pyStartsWith line "Keywords:" || pyStartsWith line "关键词:" then { r with «关键词» := afterColon line }
  else if pyStartsWith line "Author:" || pyStartsWith line "作者:" then { r with «作者» := afterColon line }
  else if pyStartsWith line "Date:" || pyStartsWith line "日期:" then { r with «日期» := afterColon line }
  else if pyStartsWith line "Country:" || pyStartsWith line "国家:" then { r with «国家» := afterColon line }
  else r

/-- One paragraph of the free-text fallback branch (lines 252–283):
positional identifier, prefix-tagged lines, then the first-line /
remaining-lines defaults for a missing title or abstract. -/
def freeRecord (i : Nat) (para : String) : Record :=
  let lines := pySplit para "\n"
  let r0 : Record :=
    { «标题» := "", «摘要» := "", «关键词» := "", «作者» := ""
    , «日期» := "", PMID := toString i, «国家» := "" }
  let r1 := lines.foldl freeLine r0
  let r2 := if r1.«标题» = "" ∧ 0 < lines.length then { r1 with «标题» := lines.headD "" } else r1
  let r3 := if r2.«摘要» = "" ∧ 1 < lines.length then { r2 with «摘要» := pyJoin "\n" (lines.drop 1) } else r2
  r3

/-- The free-text fallback branch (lines 245–283): paragraphs are the
`'\n\n'`-separated pieces, enumerated before blank paragraphs are
skipped (so identifiers keep the original 1-based positions). -/
def parseFree (content : String) : List Record :=
  (pySplit content "\n\n").enum.filterMap fun p =>
    if pyStrip p.2 = "" then none else some (freeRecord (p.1 + 1) p.2)

/-- `parse_pubmed_txt` on the text content of the file: the PubMed-tag
branch when the literal `PMID-` occurs, the free-text branch
otherwise.  In the tag branch one record is appended per chunk whose
stripped text is non-empty. -/
def parsePubmedTxt (content : String) : List Record :=
  if containsStr content "PMID-" then
    ((splitChunks (content.data.length + 1) content.data).filter
      (fun raw => !(trimL raw).isEmpty)).map chunkRecord
  else parseFree content

/-! ### The prompt builder of `screen_papers` (lines 501–560) -/

/-- The `paper_text` block: title, abstract, keywords, each omitted
when empty, each prefixed by its field label, joined by newlines. -/
def paperText (r : Record) : String :=
  let parts : List String :=
    (if r.«标题» ≠ "" then ["标题: " ++ r.«标题»] else []) ++
    (if r.«摘要» ≠ "" then ["摘要: " ++ r.«摘要»] else []) ++
    (if r.«关键词» ≠ "" then ["关键词: " ++ r.«关键词»] else [])
  pyJoin "\n" parts

/-- The literal prompt text before the screening criterion. -/
def promptHead : String :=
  "你是一位专业的文献筛选专家。请根据以下筛选标准严格判断这篇文献是否符合要求。\n\n═══════════════════════════════════════\n【筛选标准】\n═══════════════════════════════════════\n\n"

/-- The literal prompt text between the criterion and `paper_text`. -/
def promptMid : String :=
  "\n\n═══════════════════════════════════════\n【文献信息】\n═══════════════════════════════════════\n\n"

/-- The literal prompt text after `paper_text`: the output-format
specification and the consistency rules. -/
def promptTail : String :=
  "\n\n═══════════════════════════════════════\n【输出要求 - 严格遵守】\n═══════════════════════════════════════\n\n请按以下格式输出你的分析：\n\n【分类依据】\n简要说明文献中支持分类判断的关键内容（2-3句话）。\n\n【分类原因】\n详细解释为什么这样分类，包括：\n- 如果分类为\"是\"：说明文献符合哪些筛选标准\n- 如果分类为\"否\"：说明文献为什么不满足筛选标准\n- 如果分类为\"未知\"：说明缺少哪些关键信息导致无法判断\n\n【分类结果】\n在最后一行输出统一的分类标识，只能是以下三种之一：\n[CLASSIFICATION:是]\n[CLASSIFICATION:否]\n[CLASSIFICATION:未知]\n\n═══════════════════════════════════════\n【关键规则 - 必须遵守】\n═══════════════════════════════════════\n\n1. **分类一致性原则**：\n   - 如果你在【分类原因】中说明文献\"不符合\"、\"不满足\"筛选标准，那么【分类结果】必须是 [CLASSIFICATION:否]\n   - 如果你在【分类原因】中说明文献\"符合\"、\"满足\"筛选标准，那么【分类结果】必须是 [CLASSIFICATION:是]\n   - 绝对不能出现分析说\"不符合\"但分类结果是\"是\"的矛盾情况\n\n2. **分类标识格式**：\n   - 必须严格按照 [CLASSIFICATION:是] 或 [CLASSIFICATION:否] 或 [CLASSIFICATION:未知] 的格式\n   - 必须包含方括号和冒号，不能有任何额外字符\n   - 必须单独一行，位于回答的最后\n\n3. **这是程序识别分类结果的关键标记，格式错误会导致筛选结果错误！**"

/-- The `full_prompt` f-string of `screen_papers`: preamble, the
criterion, the record fields, the output-format specification. -/
def fullPrompt (criterion : String) (r : Record) : String :=
  promptHead ++ criterion ++ promptMid ++ paperText r ++ promptTail

/-! ### The tabular export (`export_to_excel`, lines 288–295) and the
spreadsheet parser (`parse_excel`, lines 298–353)

A spreadsheet is a header list and rows of cells; `none` is a missing
cell (NaN).  See the module comment for the serialization model. -/

/-- A tabular file: the header row and the data rows (one cell list per
row, indexed like the headers). -/
structure XTable where
  headers : List String
  rows : List (List (Option String))
deriving DecidableEq

/-- The fixed export column order of `export_to_excel` (and of the two
export routes in `screen_papers` / `export_parsed`). -/
def exportColumns : List String := ["标题", "关键词", "摘要", "作者", "国家", "日期", "PMID"]

/-- Read a record field by its column name. -/
def recGet (r : Record) (h : String) : String :=
  if h = "标题" then r.«标题»
  else if h = "关键词" then r.«关键词»
  else if h = "摘要" then r.«摘要»
  else if h = "作者" then r.«作者»
  else if h = "国家" then r.«国家»
  else if h = "日期" then r.«日期»
  else if h = "PMID" then r.PMID
  else ""

/-- `export_to_excel(records, path)`: a data frame over the available
columns in the fixed order, written to a spreadsheet.  An empty record
list yields a frame with no columns; an empty-string cell is written as
an empty (missing) cell. -/
def export_to_excel (records : List Record) : XTable :=
  let headers := if records.isEmpty then [] else exportColumns
  { headers := headers
  , rows := records.map fun r =>
      headers.map fun h => if recGet r h = "" then none else some (recGet r h) }

/-- The title keyword list of `column_mapping` (line 309). -/
def titleKeywords : List String := ["标题", "title", "文献标题", "文章标题", "题录", "题名"]

/-- The abstract keyword list of `column_mapping` (line 310). -/
def abstractKeywords : List String := ["摘要", "abstract", "文献摘要", "文章摘要", "概要", "概述"]

/-- The `column_mapping` keyword table of `parse_excel` (lines
308–316), in source order. -/
def column_mapping : List (String × List String) :=
  [ ("标题", titleKeywords)
  , ("摘要", abstractKeywords)
  , ("关键词", ["关键词", "keyword", "关键字", "key word", "主题词", "mesh", "主题"])
  , ("作者", ["作者", "author", "作者信息", "撰稿人", "writer", "研究人员"])
  , ("日期", ["日期", "date", "年份", "year", "发表日期", "发表年份", "出版年", "时间"])
  , ("PMID", ["pmid", "pubmed", "pub med", "文献id", "文献标识", "编号", "id"])
  , ("国家", ["国家", "country", "地区", "region", "地域", "place", "地点"]) ]

/-- Whether a column header matches any keyword of a field:
case-insensitive substring containment (lines 321–327). -/
def colMatches (kws : List String) (col : String) : Bool :=
  kws.any fun kw => containsStr (pyLower col) (pyLower kw)

/-- The `actual_columns` dictionary of `parse_excel`: for each standard
field, the first header (in original column order) containing any of
the keywords of the field.  The source fills a dict in a loop; since each
standard field is decided independently from the full header list, the
dict is exactly this function. -/
def actualColumn (headers : List String) (sn : String) : Option String :=
  match column_mapping.lookup sn with
  | some kws => headers.find? (colMatches kws)
  | none => none

/-- `row[actual_name]`: the cell under the (first) column with that
header. -/
def rowValue (headers : List String) (row : List (Option String)) (col : String) : Option String :=
  match headers.findIdx? (fun h => h == col) with
  | some i => (row.get? i).join
  | none => none

/-- Cell to field value: NaN becomes the empty string, anything else is
`str(value).strip()` (lines 339–344). -/
def cellToString : Option String → String
  | none => ""
  | some v => pyStrip v

/-- One spreadsheet row to one record (lines 336–351): matched fields
read their cell, unmatched canonical fields are filled with the empty
string. -/
def rowRecord (headers : List String) (row : List (Option String)) : Record :=
  let fv := fun sn =>
    match actualColumn headers sn with
    | some col => cellToString (rowValue headers row col)
    | none => ""
  { «标题» := fv "标题", «摘要» := fv "摘要", «关键词» := fv "关键词"
  , «作者» := fv "作者", «日期» := fv "日期", PMID := fv "PMID", «国家» := fv "国家" }

/-- `parse_excel`: raises (`none`) when neither a title-like nor an
abstract-like column is matched (lines 332–333), otherwise one record
per row. -/
def parseExcel (t : XTable) : Option (List Record) :=
  if (actualColumn t.headers "标题").isNone && (actualColumn t.headers "摘要").isNone then none
  else some (t.rows.map (rowRecord t.headers))

/-! ### Helper lemmas about the retry loop -/

/-- When the response of attempt `k` carries a structured tag, the loop
resolves immediately. -/
theorem screenAux_tag (fp : String) (oracle : Nat → String) (fuel k : Nat) (r v : String)
    (h : findTag (pyStrip (oracle k)) = some v) :
    screenAux fp oracle (fuel + 1) k r =
      (mapClassification v, [attemptOf fp k (pyStrip (oracle k))]) := by
  simp only [screenAux, h]

/-- When attempt `k < 2` finds no tag, the loop records the interaction
and retries. -/
theorem screenAux_noTag_step (fp : String) (oracle : Nat → String) (fuel k : Nat) (r : String)
    (h : findTag (pyStrip (oracle k)) = none) (hk : k < 2) :
    screenAux fp oracle (fuel + 1) k r =
      ((screenAux fp oracle fuel (k + 1) (heuristicResult (pyStrip (oracle k)))).1,
        attemptOf fp k (pyStrip (oracle k)) ::
          (screenAux fp oracle fuel (k + 1) (heuristicResult (pyStrip (oracle k)))).2) := by
  simp only [screenAux, h]
  simp [hk]

/-- When the final attempt (`k = 2`) finds no tag, the loop stops with
the heuristic verdict of that response. -/
theorem screenAux_noTag_last (fp : String) (oracle : Nat → String) (fuel : Nat) (r : String)
    (h : findTag (pyStrip (oracle 2)) = none) :
    screenAux fp oracle (fuel + 1) 2 r =
      (heuristicResult (pyStrip (oracle 2)), [attemptOf fp 2 (pyStrip (oracle 2))]) := by
  simp only [screenAux, h]
  simp

/-- Closed form of the loop when no response ever carries a tag: three
calls, verdict from the heuristic on the third response. -/
theorem screenRecord_noTag (fp : String) (oracle : Nat → String)
    (h : ∀ k, findTag (pyStrip (oracle k)) = none) :
    screenRecord fp oracle =
      (heuristicResult (pyStrip (oracle 2)),
        [attemptOf fp 0 (pyStrip (oracle 0)),
         attemptOf fp 1 (pyStrip (oracle 1)),
         attemptOf fp 2 (pyStrip (oracle 2))]) := by
  unfold screenRecord
  rw [screenAux_noTag_step fp oracle 2 0 "未知" (h 0) (by omega)]
  rw [screenAux_noTag_step fp oracle 1 1 _ (h 1) (by omega)]
  rw [screenAux_noTag_last fp oracle 0 _ (h 2)]

/-- Every element of the transcript is the interaction of its attempt:
the element at index `j` of the transcript started at `retry_count = k`
is `attemptOf fp (k + j) …`. -/
theorem screenAux_transcript (fp : String) (oracle : Nat → String) :
    ∀ fuel k r j a, (screenAux fp oracle fuel k r).2.get? j = some a →
      a = attemptOf fp (k + j) (pyStrip (oracle (k + j))) := by
  intro fuel
  induction fuel with
  | zero => intro k r j a hj; simp [screenAux] at hj
  | succ fuel ih =>
    intro k r j a hj
    by_cases htag : ∃ v, findTag (pyStrip (oracle k)) = some v
    · obtain ⟨v, hv⟩ := htag
      rw [screenAux_tag fp oracle fuel k r v hv] at hj
      cases j with
      | zero => simp at hj; simp [← hj]
      | succ j => simp at hj
    · have hn : findTag (pyStrip (oracle k)) = none := by
        cases hfn : findTag (pyStrip (oracle k)) with
        | none => rfl
        | some v => exact absurd ⟨v, hfn⟩ htag
      by_cases hk : k < 2
      · rw [screenAux_noTag_step fp oracle fuel k r hn hk] at hj
        cases j with
        | zero => simp at hj; simp [← hj]
        | succ j =>
          simp only [List.get?_cons_succ] at hj
          have h2 := ih (k + 1) (heuristicResult (pyStrip (oracle k))) j a hj
          have h3 : k + 1 + j = k + (j + 1) := by omega
          rw [h3] at h2
          exact h2
      · have hk2 : k = 2 ∨ 2 < k := by omega
        have e : screenAux fp oracle (fuel + 1) k r =
            (heuristicResult (pyStrip (oracle k)), [attemptOf fp k (pyStrip (oracle k))]) := by
          simp only [screenAux, hn]
          simp [show ¬(k < 3 - 1) from hk]
        rw [e] at hj
        cases j with
        | zero => simp at hj; simp [← hj]
        | succ j => simp at hj

/-- A concrete sample record used to instantiate witnesses. -/
def rec0 : Record :=
  { «标题» := "人工智能文献筛选", «摘要» := "研究概述", «关键词» := "AI"
  , «作者» := "", «日期» := "2020", PMID := "1", «国家» := "" }

/-- **C1.**  If the response of attempt `k` contains a well-formed
`[CLASSIFICATION:<value>]` tag (and earlier attempts did not, so the
loop reaches attempt `k`), the verdict is read off the tag value alone:
a recognized marker (`是`/included, `否`/excluded, `未知`/undetermined)
yields its verdict regardless of the surrounding prose, an unrecognized
value yields `未知` (undetermined), and exactly `k + 1` model calls are
made — the tag never triggers a retry. -/
theorem claim_C1 (fp : String) (oracle : Nat → String) (k : Nat) (v : String)
    (hk : k < 3)
    (hpre : ∀ j, j < k → findTag (pyStrip (oracle j)) = none)
    (h : findTag (pyStrip (oracle k)) = some v) :
    (screenRecord fp oracle).2.length = k + 1 ∧
    (pyStrip v = "是" → (screenRecord fp oracle).1 = "是") ∧
    (pyStrip v = "否" → (screenRecord fp oracle).1 = "否") ∧
    (pyStrip v = "未知" → (screenRecord fp oracle).1 = "未知") ∧
    (pyStrip v ≠ "是" → pyStrip v ≠ "否" → pyStrip v ≠ "未知" →
      (screenRecord fp oracle).1 = "未知") := by
  have main : (screenRecord fp oracle).1 = mapClassification v ∧
      (screenRecord fp oracle).2.length = k + 1 := by
    interval_cases k
    · have e : screenAux fp oracle 3 0 "未知" =
          (mapClassification v, [attemptOf fp 0 (pyStrip (oracle 0))]) :=
        screenAux_tag fp oracle 2 0 "未知" v h
      unfold screenRecord
      rw [e]
      exact ⟨rfl, rfl⟩
    · have e1 : screenAux fp oracle 3 0 "未知" =
          ((screenAux fp oracle 2 1 (heuristicResult (pyStrip (oracle 0)))).1,
            attemptOf fp 0 (pyStrip (oracle 0)) ::
              (screenAux fp oracle 2 1 (heuristicResult (pyStrip (oracle 0)))).2) :=
        screenAux_noTag_step fp oracle 2 0 "未知" (hpre 0 (by omega)) (by omega)
      have e2 : screenAux fp oracle 2 1 (heuristicResult (pyStrip (oracle 0))) =
          (mapClassification v, [attemptOf fp 1 (pyStrip (oracle 1))]) :=
        screenAux_tag fp oracle 1 1 _ v h
      unfold screenRecord
      rw [e1, e2]
      exact ⟨rfl, rfl⟩
    · have e1 : screenAux fp oracle 3 0 "未知" =
          ((screenAux fp oracle 2 1 (heuristicResult (pyStrip (oracle 0)))).1,
            attemptOf fp 0 (pyStrip (oracle 0)) ::
              (screenAux fp oracle 2 1 (heuristicResult (pyStrip (oracle 0)))).2) :=
        screenAux_noTag_step fp oracle 2 0 "未知" (hpre 0 (by omega)) (by omega)
      have e2 : screenAux fp oracle 2 1 (heuristicResult (pyStrip (oracle 0))) =
          ((screenAux fp oracle 1 2 (heuristicResult (pyStrip (oracle 1)))).1,
            attemptOf fp 1 (pyStrip (oracle 1)) ::
              (screenAux fp oracle 1 2 (heuristicResult (pyStrip (oracle 1)))).2) :=
        screenAux_noTag_step fp oracle 1 1 _ (hpre 1 (by omega)) (by omega)
      have e3 : screenAux fp oracle 1 2 (heuristicResult (pyStrip (oracle 1))) =
          (mapClassification v, [attemptOf fp 2 (pyStrip (oracle 2))]) :=
        screenAux_tag fp oracle 0 2 _ v h
      unfold screenRecord
      rw [e1, e2, e3]
      exact ⟨rfl, rfl⟩
  refine ⟨main.2, ?_, ?_, ?_, ?_⟩ <;> rw [main.1]
  · intro h1; simp [mapClassification, h1]
  · intro h1; simp [mapClassification, h1]
  · intro h1; simp [mapClassification, h1]
  · intro h1 h2 h3; simp [mapClassification, h1, h2, h3]

/-- Witness for C1: a response whose prose argues the opposite still
classifies by its tag, in one call. -/
theorem claim_C1_witness :
    (screenRecord "p" (fun _ => "文献不符合标准 [CLASSIFICATION:是] 完")).2.length = 0 + 1 ∧
    (pyStrip "是" = "是" →
      (screenRecord "p" (fun _ => "文献不符合标准 [CLASSIFICATION:是] 完")).1 = "是") ∧
    (pyStrip "是" = "否" →
      (screenRecord "p" (fun _ => "文献不符合标准 [CLASSIFICATION:是] 完")).1 = "否") ∧
    (pyStrip "是" = "未知" →
      (screenRecord "p" (fun _ => "文献不符合标准 [CLASSIFICATION:是] 完")).1 = "未知") ∧
    (pyStrip "是" ≠ "是" → pyStrip "是" ≠ "否" → pyStrip "是" ≠ "未知" →
      (screenRecord "p" (fun _ => "文献不符合标准 [CLASSIFICATION:是] 完")).1 = "未知") :=
  claim_C1 "p" (fun _ => "文献不符合标准 [CLASSIFICATION:是] 完") 0 "是"
    (by omega) (fun j hj => absurd hj (by omega)) (by decide)

/-- **C3.**  When no response ever contains a structured tag, the loop
makes at most 3 model calls and terminates with the heuristic verdict
of the last response (which is `未知` when no lexical marker occurs
either). -/
theorem claim_C3 (fp : String) (oracle : Nat → String)
    (h : ∀ k, findTag (pyStrip (oracle k)) = none) :
    (screenRecord fp oracle).2.length ≤ 3 ∧
    (screenRecord fp oracle).1 = heuristicResult (pyStrip (oracle 2)) := by
  rw [screenRecord_noTag fp oracle h]
  exact ⟨by simp, rfl⟩

/-- Witness for C3 at a tag-free, marker-free response. -/
theorem claim_C3_witness :
    (screenRecord "p" (fun _ => "大模型没有给出结论")).2.length ≤ 3 ∧
    (screenRecord "p" (fun _ => "大模型没有给出结论")).1 =
      heuristicResult (pyStrip "大模型没有给出结论") :=
  claim_C3 "p" (fun _ => "大模型没有给出结论")
    (fun _ => (by decide : findTag (pyStrip "大模型没有给出结论") = none))

/-- **C5.**  When no response carries a structured tag, the final
verdict follows the ordered heuristic on the last (stripped) response
text: an excluded marker (`否` or `不是`) forces `否` — even when an
included marker is also present — otherwise an included marker (`是`)
gives `是`, otherwise `未知`. -/
theorem claim_C5 (fp : String) (oracle : Nat → String)
    (h : ∀ k, findTag (pyStrip (oracle k)) = none) :
    ((containsStr (pyStrip (oracle 2)) "否" = true ∨
        containsStr (pyStrip (oracle 2)) "不是" = true) →
      (screenRecord fp oracle).1 = "否") ∧
    (containsStr (pyStrip (oracle 2)) "否" = false →
      containsStr (pyStrip (oracle 2)) "不是" = false →
      containsStr (pyStrip (oracle 2)) "是" = true →
      (screenRecord fp oracle).1 = "是") ∧
    (containsStr (pyStrip (oracle 2)) "否" = false →
      containsStr (pyStrip (oracle 2)) "不是" = false →
      containsStr (pyStrip (oracle 2)) "是" = false →
      (screenRecord fp oracle).1 = "未知") := by
  rw [screenRecord_noTag fp oracle h]
  refine ⟨?_, ?_, ?_⟩
  · rintro (h1 | h1) <;> simp [heuristicResult, h1]
  · intro h1 h2 h3; simp [heuristicResult, h1, h2, h3]
  · intro h1 h2 h3; simp [heuristicResult, h1, h2, h3]

/-- Witness for C5: a tag-free response containing both markers (`不是`
contains `是`) resolves to the excluded verdict. -/
theorem claim_C5_witness :
    ((containsStr (pyStrip "这不是相关研究") "否" = true ∨
        containsStr (pyStrip "这不是相关研究") "不是" = true) →
      (screenRecord "p" (fun _ => "这不是相关研究")).1 = "否") ∧
    (containsStr (pyStrip "这不是相关研究") "否" = false →
      containsStr (pyStrip "这不是相关研究") "不是" = false →
      containsStr (pyStrip "这不是相关研究") "是" = true →
      (screenRecord "p" (fun _ => "这不是相关研究")).1 = "是") ∧
    (containsStr (pyStrip "这不是相关研究") "否" = false →
      containsStr (pyStrip "这不是相关研究") "不是" = false →
      containsStr (pyStrip "这不是相关研究") "是" = false →
      (screenRecord "p" (fun _ => "这不是相关研究")).1 = "未知") :=
  claim_C5 "p" (fun _ => "这不是相关研究")
    (fun _ => (by decide : findTag (pyStrip "这不是相关研究") = none))

/-- **C4, counterexample.**  The claim says each retry sends a
shortened compliance directive instead of the full original prompt.
In the code the model client receives `full_prompt` on every attempt
(the directive appears only in the progress event): at retry 1 of a
run whose responses never carry a tag, the prompt actually sent equals
the full original classification prompt, which is not the directive. -/
theorem claim_C4_counterexample :
    (((screenRecord (fullPrompt "糖尿病相关研究" rec0) (fun _ => "无法判断")).2.get? 1).map
        Attempt.sent) = some (fullPrompt "糖尿病相关研究" rec0) ∧
    fullPrompt "糖尿病相关研究" rec0 ≠ "第2次尝试：请严格按照格式要求输出分类结果" := by
  constructor
  · rw [screenRecord_noTag (fullPrompt "糖尿病相关研究" rec0) (fun _ => "无法判断")
      (fun _ => (by decide : findTag (pyStrip "无法判断") = none))]
    rfl
  · intro hc
    have hh : (fullPrompt "糖尿病相关研究" rec0).data.head? =
        "第2次尝试：请严格按照格式要求输出分类结果".data.head? := by rw [hc]
    revert hh
    decide

/-- **C4, amended.**  On every attempt — first try and retries alike —
the prompt actually sent to the model client is the full original
classification prompt; the shortened compliance directive
(`第N次尝试：请严格按照格式要求输出分类结果`) appears only as the content of the
progress event emitted for the retry. -/
theorem claim_C4_amended (fp : String) (oracle : Nat → String) (j : Nat) (a : Attempt)
    (hj : (screenRecord fp oracle).2.get? j = some a) :
    a.sent = fp ∧
    (1 ≤ j → a.event = "第" ++ toString (j + 1) ++ "次尝试：请严格按照格式要求输出分类结果") := by
  have h := screenAux_transcript fp oracle 3 0 "未知" j a hj
  subst h
  constructor
  · rfl
  · intro h1
    have hz : (j == 0) = false := by
      simp only [beq_eq_false_iff_ne, ne_eq]
      omega
    simp only [attemptOf, Nat.zero_add, hz, Bool.false_eq_true, if_false]

/-- Witness for the amended C4 at retry 1 of a concrete tag-free run. -/
theorem claim_C4_amended_witness :
    ({ sent := "p", event := "第2次尝试：请严格按照格式要求输出分类结果"
     , answer := "looking" } : Attempt).sent = "p" ∧
    (1 ≤ 1 → ({ sent := "p", event := "第2次尝试：请严格按照格式要求输出分类结果"
              , answer := "looking" } : Attempt).event =
        "第" ++ toString (1 + 1) ++ "次尝试：请严格按照格式要求输出分类结果") :=
  claim_C4_amended "p" (fun _ => "looking") 1
    { sent := "p", event := "第2次尝试：请严格按照格式要求输出分类结果", answer := "looking" }
    (by decide)

/-- **C2, counterexample.**  A chunk carrying only a PMID parses to a
record whose title and abstract are both empty, and that record
appears in the output of the parser — nothing drops it. -/
theorem claim_C2_counterexample :
    parsePubmedTxt "PMID- 1" =
      [{ «标题» := "", «摘要» := "", «关键词» := "", «作者» := ""
       , «日期» := "", PMID := "1", «国家» := "" }] := by decide

/-- **C2, amended.**  Neither parser filters on the title/abstract
fields at all: the PubMed-tag branch emits exactly one record per
chunk whose raw text is not blank, and the spreadsheet parser emits
exactly one record per input row — records with empty title and
abstract included. -/
theorem claim_C2_amended :
    (∀ content : String, containsStr content "PMID-" = true →
      (parsePubmedTxt content).length =
        ((splitChunks (content.data.length + 1) content.data).filter
          (fun raw => !(trimL raw).isEmpty)).length) ∧
    (∀ (t : XTable) (rs : List Record), parseExcel t = some rs →
      rs.length = t.rows.length) := by
  constructor
  · intro content hc
    simp [parsePubmedTxt, hc]
  · intro t rs hrs
    by_cases hcnd : (actualColumn t.headers "标题").isNone &&
        (actualColumn t.headers "摘要").isNone
    · simp [parseExcel, hcnd] at hrs
    · simp only [parseExcel, hcnd, Bool.false_eq_true, if_false, Option.some.injEq] at hrs
      rw [← hrs]
      simp

/-- Witness for the amended C2. -/
theorem claim_C2_amended_witness :
    ((parsePubmedTxt "PMID- 1").length =
      ((splitChunks ("PMID- 1".data.length + 1) "PMID- 1".data).filter
        (fun raw => !(trimL raw).isEmpty)).length) ∧
    (([{ «标题» := "T", «摘要» := "", «关键词» := "", «作者» := ""
       , «日期» := "", PMID := "", «国家» := "" }] : List Record).length =
      ({ headers := ["标题"], rows := [[some "T"]] } : XTable).rows.length) :=
  ⟨claim_C2_amended.1 "PMID- 1" (by decide),
   claim_C2_amended.2 { headers := ["标题"], rows := [[some "T"]] }
     [{ «标题» := "T", «摘要» := "", «关键词» := "", «作者» := ""
      , «日期» := "", PMID := "", «国家» := "" }] (by decide)⟩

/-- **C9.**  The parsing scenario fixed by the spec: two records, the
first with identifier 1, title `Foo`, abstract `Bar baz`; the second
with identifier 2, title `Qux`, empty abstract. -/
theorem claim_C9 :
    parsePubmedTxt "PMID- 1\nTI  - Foo\nAB  - Bar baz\n\nPMID- 2\nTI  - Qux" =
      [{ «标题» := "Foo", «摘要» := "Bar baz", «关键词» := "", «作者» := ""
       , «日期» := "", PMID := "1", «国家» := "" },
       { «标题» := "Qux", «摘要» := "", «关键词» := "", «作者» := ""
       , «日期» := "", PMID := "2", «国家» := "" }] := by decide

/-! ### The prompt-builder claims -/

/-- The title/abstract/keywords fields with their labels, in prompt
order. -/
def labeledFields (r : Record) : List (String × String) :=
  [("标题", r.«标题»), ("摘要", r.«摘要»), ("关键词", r.«关键词»)]

/-- The reading the spec gives of the `paper_text` block: drop the fields whose
value is empty, prefix each kept field with its label, join with
newlines. -/
def paperTextSpec (r : Record) : String :=
  pyJoin "\n" ((labeledFields r).filterMap fun lv =>
    if lv.2 = "" then none else some (lv.1 ++ ": " ++ lv.2))

/-- **C6.**  Prompt building is pure and deterministic — equal
`(record, criterion)` pairs give byte-identical prompts — and the
prompt is exactly: preamble, criterion, the present fields each
prefixed with its label (empty fields omitted), output-format
specification. -/
theorem claim_C6 (r r2 : Record) (c c2 : String) (hr : r = r2) (hc : c = c2) :
    fullPrompt c r = fullPrompt c2 r2 ∧
    fullPrompt c r = promptHead ++ c ++ promptMid ++ paperTextSpec r ++ promptTail := by
  subst hr; subst hc
  have hp : paperText r = paperTextSpec r := by
    have e1 : ("标题" ++ ": " : String) = "标题: " := rfl
    have e2 : ("摘要" ++ ": " : String) = "摘要: " := rfl
    have e3 : ("关键词" ++ ": " : String) = "关键词: " := rfl
    by_cases h1 : r.«标题» = "" <;> by_cases h2 : r.«摘要» = "" <;>
      by_cases h3 : r.«关键词» = "" <;>
      simp only [paperText, paperTextSpec, labeledFields, h1, h2, h3, e1, e2, e3,
        List.filterMap, ne_eq, not_false_eq_true, not_true_eq_false, if_true, if_false,
        ite_true, ite_false, List.append_nil, List.nil_append, List.cons_append,
        List.singleton_append, ite_not]
  exact ⟨rfl, by unfold fullPrompt; rw [hp]⟩

/-- Witness for C6 at a concrete record (whose keywords are empty and
therefore omitted) and criterion. -/
theorem claim_C6_witness :
    fullPrompt "糖尿病研究" { «标题» := "T", «摘要» := "A", «关键词» := "", «作者» := ""
                          , «日期» := "", PMID := "9", «国家» := "" } =
      fullPrompt "糖尿病研究" { «标题» := "T", «摘要» := "A", «关键词» := "", «作者» := ""
                            , «日期» := "", PMID := "9", «国家» := "" } ∧
    fullPrompt "糖尿病研究" { «标题» := "T", «摘要» := "A", «关键词» := "", «作者» := ""
                          , «日期» := "", PMID := "9", «国家» := "" } =
      promptHead ++ "糖尿病研究" ++ promptMid ++
        paperTextSpec { «标题» := "T", «摘要» := "A", «关键词» := "", «作者» := ""
                      , «日期» := "", PMID := "9", «国家» := "" } ++ promptTail :=
  claim_C6 _ _ "糖尿病研究" "糖尿病研究" rfl rfl

/-! ### The round-trip claim -/

/-- A record whose field values carry no leading or trailing
whitespace. -/
def trimmedRecord (r : Record) : Prop :=
  pyStrip r.«标题» = r.«标题» ∧ pyStrip r.«摘要» = r.«摘要» ∧
  pyStrip r.«关键词» = r.«关键词» ∧ pyStrip r.«作者» = r.«作者» ∧
  pyStrip r.«日期» = r.«日期» ∧ pyStrip r.PMID = r.PMID ∧
  pyStrip r.«国家» = r.«国家»

instance (r : Record) : Decidable (trimmedRecord r) := by
  unfold trimmedRecord; infer_instance

/-- One exported cell read back: the empty string goes out as a missing
cell and comes back empty; a non-empty trimmed value survives
`str(value).strip()` unchanged. -/
theorem cellRound (v : String) (hv : pyStrip v = v) :
    cellToString (if v = "" then none else some v) = v := by
  by_cases h : v = "" <;> simp [cellToString, h, hv]

/-- An exported row re-read under the export header row, field by
field. -/
theorem rowRecord_export (r : Record) (ht : trimmedRecord r) :
    rowRecord exportColumns
      (exportColumns.map fun h => if recGet r h = "" then none else some (recGet r h)) = r := by
  obtain ⟨t1, t2, t3, t4, t5, t6, t7⟩ := ht
  have hrr : rowRecord exportColumns
      (exportColumns.map fun h => if recGet r h = "" then none else some (recGet r h)) =
      { «标题» := cellToString (if r.«标题» = "" then none else some r.«标题»)
      , «摘要» := cellToString (if r.«摘要» = "" then none else some r.«摘要»)
      , «关键词» := cellToString (if r.«关键词» = "" then none else some r.«关键词»)
      , «作者» := cellToString (if r.«作者» = "" then none else some r.«作者»)
      , «日期» := cellToString (if r.«日期» = "" then none else some r.«日期»)
      , PMID := cellToString (if r.PMID = "" then none else some r.PMID)
      , «国家» := cellToString (if r.«国家» = "" then none else some r.«国家») } := rfl
  rw [hrr, cellRound _ t1, cellRound _ t2, cellRound _ t3, cellRound _ t4,
    cellRound _ t5, cellRound _ t6, cellRound _ t7]

/-- **C7, counterexample.**  The round trip is not the identity on all
parser outputs: a `MH  - Bar ` line leaves a trailing space in the
parsed keywords, which the `str(value).strip()` step of `parse_excel` removes on
re-parse; and the empty batch exports to a columnless table the
spreadsheet parser rejects. -/
theorem claim_C7_counterexample :
    parseExcel (export_to_excel (parsePubmedTxt "PMID- 1\nTI  - Foo\nMH  - Bar ")) ≠
      some (parsePubmedTxt "PMID- 1\nTI  - Foo\nMH  - Bar ") ∧
    parseExcel (export_to_excel ([] : List Record)) = none := by
  constructor
  · decide
  · decide

/-- **C7, amended.**  For a non-empty batch all of whose field values
are free of surrounding whitespace, exporting and re-parsing through
the spreadsheet parser recovers exactly the original records (in
general, re-parsing returns each field value whitespace-stripped). -/
theorem claim_C7_amended (records : List Record) (hne : records ≠ [])
    (ht : ∀ r ∈ records, trimmedRecord r) :
    parseExcel (export_to_excel records) = some records := by
  have hemp : records.isEmpty = false := by
    cases records with
    | nil => exact absurd rfl hne
    | cons a l => rfl
  have hexp : export_to_excel records =
      { headers := exportColumns
      , rows := records.map fun r =>
          exportColumns.map fun h => if recGet r h = "" then none else some (recGet r h) } := by
    simp [export_to_excel, hemp]
  rw [hexp]
  have hcol : actualColumn exportColumns "标题" = some "标题" := rfl
  have hmap : ∀ l : List Record, (∀ r ∈ l, trimmedRecord r) →
      (l.map fun r =>
          exportColumns.map fun h => if recGet r h = "" then none else some (recGet r h)).map
        (rowRecord exportColumns) = l := by
    intro l hl
    induction l with
    | nil => rfl
    | cons a l ih =>
      simp only [List.map_cons, List.cons.injEq]
      constructor
      · exact rowRecord_export a (hl a (by simp))
      · exact ih (fun r hr => hl r (by simp [hr]))
  simp only [parseExcel, hcol, Option.isNone_some, Bool.false_and, Bool.false_eq_true,
    if_false, Option.some.injEq]
  exact hmap records ht

/-- Witness for the amended C7 at a one-record trimmed batch. -/
theorem claim_C7_amended_witness :
    parseExcel (export_to_excel [rec0]) = some [rec0] :=
  claim_C7_amended [rec0] (by decide)
    (fun r hr => by
      have : r = rec0 := by
        simp only [List.mem_singleton] at hr
        exact hr
      rw [this]
      decide)

/-! ### The spreadsheet-parser contract -/

/-- The seven canonical field names. -/
def canonicalNames : List String := ["标题", "摘要", "关键词", "作者", "日期", "PMID", "国家"]

/-- **C8.**  `parse_excel` fails exactly when no header matches a
title keyword and no header matches an abstract keyword; on success it
produces exactly one record per row, and a field of a record is the empty
string whenever its canonical name matched no column or the cell of its matched
column is missing. -/
theorem claim_C8 (t : XTable) :
    (parseExcel t = none ↔
      ((∀ col ∈ t.headers, colMatches titleKeywords col = false) ∧
       (∀ col ∈ t.headers, colMatches abstractKeywords col = false))) ∧
    (∀ rs, parseExcel t = some rs →
      rs = t.rows.map (rowRecord t.headers) ∧
      rs.length = t.rows.length ∧
      (∀ row sn, sn ∈ canonicalNames →
        (actualColumn t.headers sn = none → recGet (rowRecord t.headers row) sn = "") ∧
        (∀ col, actualColumn t.headers sn = some col →
          rowValue t.headers row col = none →
          recGet (rowRecord t.headers row) sn = ""))) := by
  have e1 : actualColumn t.headers "标题" = t.headers.find? (colMatches titleKeywords) := rfl
  have e2 : actualColumn t.headers "摘要" = t.headers.find? (colMatches abstractKeywords) := rfl
  constructor
  · constructor
    · intro hn
      by_cases hc : (actualColumn t.headers "标题").isNone &&
          (actualColumn t.headers "摘要").isNone
      · rw [Bool.and_eq_true, Option.isNone_iff_eq_none, Option.isNone_iff_eq_none] at hc
        obtain ⟨hca, hcb⟩ := hc
        rw [e1, List.find?_eq_none] at hca
        rw [e2, List.find?_eq_none] at hcb
        constructor
        · intro col hcol
          simpa using hca col hcol
        · intro col hcol
          simpa using hcb col hcol
      · simp [parseExcel, hc] at hn
    · rintro ⟨ha, hb⟩
      have hca : actualColumn t.headers "标题" = none := by
        rw [e1, List.find?_eq_none]
        intro col hcol
        simp [ha col hcol]
      have hcb : actualColumn t.headers "摘要" = none := by
        rw [e2, List.find?_eq_none]
        intro col hcol
        simp [hb col hcol]
      simp [parseExcel, hca, hcb]
  · intro rs hrs
    by_cases hc : (actualColumn t.headers "标题").isNone &&
        (actualColumn t.headers "摘要").isNone
    · simp [parseExcel, hc] at hrs
    · simp only [parseExcel, hc, Bool.false_eq_true, if_false, Option.some.injEq] at hrs
      refine ⟨hrs.symm, by rw [← hrs]; simp, ?_⟩
      intro row sn hsn
      constructor
      · intro hnone
        fin_cases hsn <;> simp [recGet, rowRecord, hnone]
      · intro col hcol hcell
        fin_cases hsn <;> simp [recGet, rowRecord, hcol, hcell, cellToString]

/-- Witness for C8: a table whose single header matches the title
keywords and whose single row has a missing cell parses to one record
per row, obtained by applying the contract theorem at that table. -/
theorem claim_C8_witness :
    ([{ «标题» := "", «摘要» := "", «关键词» := "", «作者» := ""
      , «日期» := "", PMID := "", «国家» := "" }] : List Record) =
      ({ headers := ["文献标题"], rows := [[none]] } : XTable).rows.map
        (rowRecord ({ headers := ["文献标题"], rows := [[none]] } : XTable).headers) :=
  ((claim_C8 { headers := ["文献标题"], rows := [[none]] }).2
    [{ «标题» := "", «摘要» := "", «关键词» := "", «作者» := ""
     , «日期» := "", PMID := "", «国家» := "" }] (by decide)).1

/-! ### Stability of the leftmost structured tag (for C10) -/

/-- The head of a non-empty `dropWhile` residue fails the predicate. -/
theorem dropWhile_head_not (p : Char → Bool) :
    ∀ (l : List Char) c t, l.dropWhile p = c :: t → p c = false := by
  intro l
  induction l with
  | nil => intro c t h; simp [List.dropWhile] at h
  | cons a l ih =>
    intro c t h
    by_cases hp : p a = true
    · rw [List.dropWhile_cons_of_pos hp] at h
      exact ih c t h
    · rw [List.dropWhile_cons_of_neg hp] at h
      cases h
      simpa using hp

/-- `takeWhile` over an appended list ignores the right part when the
left part already stops the scan. -/
theorem takeWhile_append_left (p : Char → Bool) :
    ∀ (xs ys : List Char), xs.dropWhile p ≠ [] →
      (xs ++ ys).takeWhile p = xs.takeWhile p := by
  intro xs
  induction xs with
  | nil => intro ys h; simp [List.dropWhile] at h
  | cons a l ih =>
    intro ys h
    by_cases hp : p a = true
    · rw [List.dropWhile_cons_of_pos hp] at h
      simp only [List.cons_append, List.takeWhile_cons_of_pos hp]
      rw [ih ys h]
    · simp only [List.cons_append, List.takeWhile_cons_of_neg hp]

/-- `dropWhile` over an appended list keeps the right part intact when
the left part already stops the scan. -/
theorem dropWhile_append_left (p : Char → Bool) :
    ∀ (xs ys : List Char), xs.dropWhile p ≠ [] →
      (xs ++ ys).dropWhile p = xs.dropWhile p ++ ys := by
  intro xs
  induction xs with
  | nil => intro ys h; simp [List.dropWhile] at h
  | cons a l ih =>
    intro ys h
    by_cases hp : p a = true
    · rw [List.dropWhile_cons_of_pos hp] at h
      simp only [List.cons_append, List.dropWhile_cons_of_pos hp]
      exact ih ys h
    · simp only [List.cons_append, List.dropWhile_cons_of_neg hp]

/-- `drop` distributes over an append within the left part. -/
theorem drop_append_left (n : Nat) (xs ys : List Char) (h : n ≤ xs.length) :
    (xs ++ ys).drop n = xs.drop n ++ ys := by
  induction n generalizing xs with
  | zero => simp
  | succ n ih =>
    cases xs with
    | nil => simp at h
    | cons a l =>
      simp only [List.cons_append, List.drop_succ_cons]
      exact ih l (by simpa using h)

/-- A boolean prefix test survives extending the larger list. -/
theorem isPrefixOf_append_right (l xs ys : List Char) (h : l.isPrefixOf xs = true) :
    l.isPrefixOf (xs ++ ys) = true := by
  rw [ List.isPrefixOf_iff_prefix] at h ⊢
  exact h.trans (List.prefix_append xs ys)

/-- A boolean prefix test is decided inside the left part when it is
long enough. -/
theorem isPrefixOf_append_eq (l xs ys : List Char) (h : l.length ≤ xs.length) :
    l.isPrefixOf (xs ++ ys) = l.isPrefixOf xs := by
  cases hx : l.isPrefixOf xs with
  | true => exact isPrefixOf_append_right l xs ys hx
  | false =>
    cases hxy : l.isPrefixOf (xs ++ ys) with
    | false => rfl
    | true =>
      exfalso
      rw [ List.isPrefixOf_iff_prefix] at hxy
      rw [List.prefix_iff_eq_take] at hxy
      rw [List.take_append_of_le_length h] at hxy
      have hpp : l <+: xs := by
        rw [List.prefix_iff_eq_take]
        exact hxy
      have hnp : ¬ l <+: xs := by
        rw [← List.isPrefixOf_iff_prefix]
        simp [hx]
      exact hnp hpp

/-- Elimination form of a successful `tagAt`. -/
theorem tagAt_some_elim (cs v : List Char) (h : tagAt cs = some v) :
    tagHead.isPrefixOf cs = true ∧
    (cs.drop tagHead.length).takeWhile notRB = v ∧ v ≠ [] ∧
    ∃ t, (cs.drop tagHead.length).dropWhile notRB = ']' :: t := by
  unfold tagAt at h
  by_cases hpre : tagHead.isPrefixOf cs = true
  · simp only [hpre, if_true] at h
    cases hD : (cs.drop tagHead.length).dropWhile notRB with
    | nil => rw [hD] at h; exact absurd h (by simp)
    | cons d t =>
      have hd : notRB d = false := dropWhile_head_not notRB _ d t hD
      have hdd : d = ']' := by simpa [notRB] using hd
      subst hdd
      rw [hD] at h
      by_cases hE : ((cs.drop tagHead.length).takeWhile notRB).isEmpty = true
      · simp only [hE, if_true] at h
        cases h
      · simp only [hE, Bool.false_eq_true, if_false] at h
        injection h with hv
        refine ⟨hpre, hv, ?_, ⟨t, rfl⟩⟩
        intro hnil
        rw [hv, hnil] at hE
        simp at hE
  · simp only [hpre] at h
    simp at h

/-- Introduction form of a successful `tagAt`. -/
theorem tagAt_some_intro (cs v t : List Char)
    (hpre : tagHead.isPrefixOf cs = true)
    (htw : (cs.drop tagHead.length).takeWhile notRB = v) (hv : v ≠ [])
    (hD : (cs.drop tagHead.length).dropWhile notRB = ']' :: t) :
    tagAt cs = some v := by
  unfold tagAt
  simp only [hpre, if_true]
  rw [hD]
  have hEv : v.isEmpty = false := by
    cases v with
    | nil => exact absurd rfl hv
    | cons a l => rfl
  simp only [htw, hEv, Bool.false_eq_true, if_false]

/-- Membership in a deeper `drop` gives membership in a shallower
one. -/
theorem mem_drop_weaken (a : Char) (l : List Char) (n : Nat) (h : a ∈ l.drop (n + 1)) :
    a ∈ l.drop n := by
  have e : (l.drop n).drop 1 = l.drop (n + 1) := by rw [List.drop_drop, Nat.add_comm]
  have h2 : a ∈ (l.drop n).drop 1 := by rw [e]; exact h
  exact List.drop_subset 1 (l.drop n) h2

/-- A successful `tagAt` survives appending to the input. -/
theorem tagAt_some_append (cs ys v : List Char) (h : tagAt cs = some v) :
    tagAt (cs ++ ys) = some v := by
  obtain ⟨hpre, htw, hv, t, hD⟩ := tagAt_some_elim cs v h
  have hlen : tagHead.length ≤ cs.length := by
    rw [ List.isPrefixOf_iff_prefix] at hpre
    exact hpre.length_le
  have hdrop : (cs ++ ys).drop tagHead.length = cs.drop tagHead.length ++ ys :=
    drop_append_left _ cs ys hlen
  have hDne : (cs.drop tagHead.length).dropWhile notRB ≠ [] := by rw [hD]; simp
  apply tagAt_some_intro (cs ++ ys) v (t ++ ys)
  · exact isPrefixOf_append_right _ cs ys hpre
  · rw [hdrop, takeWhile_append_left notRB _ ys hDne, htw]
  · exact hv
  · rw [hdrop, dropWhile_append_left notRB _ ys hDne, hD]
    rfl

/-- A list on which the tag search succeeds holds at least the 18
characters of a complete tag. -/
theorem findTagAux_length (cs v : List Char) (h : findTagAux cs = some v) :
    18 ≤ cs.length := by
  induction cs with
  | nil => simp [findTagAux] at h
  | cons c rest ih =>
    unfold findTagAux at h
    cases hT : tagAt (c :: rest) with
    | some w =>
      obtain ⟨hpre, htw, hv, t, hD⟩ := tagAt_some_elim _ _ hT
      have hlen : tagHead.length ≤ (c :: rest).length := by
        rw [ List.isPrefixOf_iff_prefix] at hpre
        exact hpre.length_le
      have hsplit := List.takeWhile_append_dropWhile (p := notRB)
        (l := (c :: rest).drop tagHead.length)
      rw [htw, hD] at hsplit
      have hL : ((c :: rest).drop tagHead.length).length = w.length + (t.length + 1) := by
        rw [← hsplit]
        simp
      have hdl : ((c :: rest).drop tagHead.length).length =
          (c :: rest).length - tagHead.length := List.length_drop _ _
      have hwpos : 1 ≤ w.length := by
        cases w with
        | nil => exact absurd rfl hv
        | cons a l => simp
      have ht16 : tagHead.length = 16 := rfl
      omega
    | none =>
      rw [hT] at h
      have h2 : findTagAux rest = some v := h
      have := ih h2
      simp only [List.length_cons]
      omega

/-- A list on which the tag search succeeds has a closing bracket
after position 17. -/
theorem findTagAux_rbmem (cs v : List Char) (h : findTagAux cs = some v) :
    ']' ∈ cs.drop 17 := by
  induction cs with
  | nil => simp [findTagAux] at h
  | cons c rest ih =>
    unfold findTagAux at h
    cases hT : tagAt (c :: rest) with
    | some w =>
      obtain ⟨hpre, htw, hv, t, hD⟩ := tagAt_some_elim _ _ hT
      have hsplit := List.takeWhile_append_dropWhile (p := notRB)
        (l := (c :: rest).drop tagHead.length)
      rw [htw, hD] at hsplit
      cases w with
      | nil => exact absurd rfl hv
      | cons a w2 =>
        have hm : ']' ∈ ((c :: rest).drop tagHead.length).drop 1 := by
          rw [← hsplit]
          simp
        have ht16 : tagHead.length = 16 := rfl
        rw [ht16] at hm
        have e : ((c :: rest).drop 16).drop 1 = (c :: rest).drop 17 := by
          rw [List.drop_drop]
        rw [e] at hm
        exact hm
    | none =>
      rw [hT] at h
      have h2 : findTagAux rest = some v := h
      have h17 := ih h2
      have h16 : ']' ∈ rest.drop 16 := mem_drop_weaken _ _ _ h17
      exact (h16 : ']' ∈ (c :: rest).drop 17)

/-- A failing `tagAt` keeps failing after appending, provided the
input already holds a full potential tag width and a closing bracket
beyond the head (both facts hold wherever a later search position
succeeds). -/
theorem tagAt_none_append (cs ys : List Char) (h : tagAt cs = none)
    (hlen : tagHead.length ≤ cs.length) (hmem : ']' ∈ cs.drop tagHead.length) :
    tagAt (cs ++ ys) = none := by
  unfold tagAt at h ⊢
  by_cases hpre : tagHead.isPrefixOf cs = true
  · simp only [hpre, if_true] at h
    have hpre2 : tagHead.isPrefixOf (cs ++ ys) = true := isPrefixOf_append_right _ _ _ hpre
    simp only [hpre2, if_true]
    have hdrop : (cs ++ ys).drop tagHead.length = cs.drop tagHead.length ++ ys :=
      drop_append_left _ _ _ hlen
    rw [hdrop]
    cases hD : (cs.drop tagHead.length).dropWhile notRB with
    | nil =>
      exfalso
      have hall := List.dropWhile_eq_nil_iff.1 hD
      have h2 := hall ']' hmem
      simp [notRB] at h2
    | cons d t =>
      have hDne : (cs.drop tagHead.length).dropWhile notRB ≠ [] := by rw [hD]; simp
      rw [dropWhile_append_left notRB _ ys hDne, takeWhile_append_left notRB _ ys hDne, hD]
      have hd : notRB d = false := dropWhile_head_not notRB _ d t hD
      have hdd : d = ']' := by simpa [notRB] using hd
      subst hdd
      rw [hD] at h
      by_cases hE : ((cs.drop tagHead.length).takeWhile notRB).isEmpty = true
      · simp only [hE, if_true]
        rfl
      · simp only [hE, Bool.false_eq_true, if_false] at h
        cases h
  · have hpre2 : tagHead.isPrefixOf (cs ++ ys) = false := by
      rw [isPrefixOf_append_eq _ _ _ hlen]
      cases hb : tagHead.isPrefixOf cs with
      | true => exact absurd hb hpre
      | false => rfl
    simp [hpre2]

/-- The leftmost structured-tag match is unchanged by appending any
further text. -/
theorem findTagAux_append (cs ys v : List Char) (h : findTagAux cs = some v) :
    findTagAux (cs ++ ys) = some v := by
  induction cs with
  | nil => simp [findTagAux] at h
  | cons c rest ih =>
    rw [List.cons_append]
    unfold findTagAux at h ⊢
    cases hT : tagAt (c :: rest) with
    | some w =>
      rw [hT] at h
      have hw : w = v := by simpa using h
      have hTa := tagAt_some_append (c :: rest) ys w hT
      rw [List.cons_append] at hTa
      rw [hTa, hw]
    | none =>
      rw [hT] at h
      have h2 : findTagAux rest = some v := h
      have hlen := findTagAux_length rest v h2
      have hmem17 := findTagAux_rbmem rest v h2
      have hlen2 : tagHead.length ≤ (c :: rest).length := by
        have ht16 : tagHead.length = 16 := rfl
        simp only [List.length_cons]
        omega
      have hmem2 : ']' ∈ (c :: rest).drop tagHead.length := by
        have h16 : ']' ∈ rest.drop 16 := mem_drop_weaken _ _ _ hmem17
        have h15 : ']' ∈ rest.drop 15 := mem_drop_weaken _ _ _ h16
        exact (h15 : ']' ∈ (c :: rest).drop 16)
      have hnone := tagAt_none_append (c :: rest) ys hT hlen2 hmem2
      rw [List.cons_append] at hnone
      rw [hnone]
      exact ih h2

/-- **C10.**  The verdict tag is extracted by the leftmost match: if a
response prefix already yields tag value `v`, any longer response
obtained by appending more text — including further well-formed
`[CLASSIFICATION:...]` tags — still yields `v`, and therefore the same
mapped verdict; the later tags are ignored. -/
theorem claim_C10 (s t v : String) (h : findTag s = some v) :
    findTag (s ++ t) = some v ∧
    (findTag (s ++ t)).map mapClassification = (findTag s).map mapClassification := by
  have hdata : (s ++ t).data = s.data ++ t.data := by
    cases s
    cases t
    rfl
  obtain ⟨w, hw, hv⟩ : ∃ w, findTagAux s.data = some w ∧ String.mk w = v := by
    unfold findTag at h
    cases hF : findTagAux s.data with
    | none => rw [hF] at h; simp at h
    | some w =>
      rw [hF] at h
      refine ⟨w, rfl, ?_⟩
      simpa using h
  have h2 := findTagAux_append s.data t.data w hw
  constructor
  · unfold findTag
    rw [hdata, h2, ← hv]
    rfl
  · unfold findTag
    rw [hdata, h2, hw]

/-- Witness for C10: the first tag (`是`) wins over a second appended
tag (`否`). -/
theorem claim_C10_witness :
    findTag ("回答[CLASSIFICATION:是]" ++ "后补[CLASSIFICATION:否]") = some "是" ∧
    (findTag ("回答[CLASSIFICATION:是]" ++ "后补[CLASSIFICATION:否]")).map mapClassification =
      (findTag "回答[CLASSIFICATION:是]").map mapClassification :=
  claim_C10 "回答[CLASSIFICATION:是]" "后补[CLASSIFICATION:否]" "是" (by decide)
